import Mathlib

/-!
# Verification of the mailmunch email-to-parquet ETL pipeline

Shallow embedding of the two Lambda handlers (email ingestion and CSV-to-parquet
transform) of the mailmunch repository, together with proofs about the embedded
functions.  Go strings are modelled as Lean `String`s (the inputs of interest
are ASCII, where byte-level and char-level processing agree); Go `float64`
values are modelled as `Rat` (the claims only concern exactly representable
decimal values and error behaviour); external collaborators (the S3 client,
`uuid.New`, `mail.ParseAddress`, `mail.ParseDate`, `strconv.ParseFloat`) are
modelled as explicit oracle parameters or as faithful Lean translations of the
documented library behaviour.
-/

namespace Mailmunch

/-! ## Basic Go string helpers -/

/-- Model of Go `strings.Split` for a single-character separator. -/
def splitOnChar (sep : Char) : List Char → List (List Char)
  | [] => [[]]
  | c :: cs =>
    match splitOnChar sep cs with
    | [] => [[]]
    | seg :: segs => if c = sep then [] :: seg :: segs else (c :: seg) :: segs

/-- Go `strings.Split(s, sep)` for a one-character separator `sep`. -/
def goSplit1 (sep : Char) (s : String) : List String :=
  (splitOnChar sep s.data).map String.mk

/-- ASCII lowercase of one character (Go `strings.ToLower` restricted to ASCII). -/
def asciiLower (c : Char) : Char :=
  if 'A' ≤ c ∧ c ≤ 'Z' then Char.ofNat (c.toNat + 32) else c

/-- ASCII lowercase of a string. -/
def asciiLowerStr (s : String) : String :=
  String.mk (s.data.map asciiLower)

/-- Go `strings.TrimSpace` (ASCII whitespace). -/
def goTrimSpace (s : String) : String :=
  String.mk
    (((s.data.dropWhile Char.isWhitespace).reverse.dropWhile Char.isWhitespace).reverse)

/-- Go `strings.HasPrefix`. -/
def goStartsWith (s pre : String) : Bool := pre.data.isPrefixOf s.data

/-- Go `strings.TrimPrefix`: drop `pre` from the front of `s` when present. -/
def goDropPre (s pre : String) : String :=
  if goStartsWith s pre then String.mk (s.data.drop pre.data.length) else s

/-- Does `hay` start with `needle`? (list version) -/
def startsWithList : List Char → List Char → Bool
  | _, [] => true
  | [], _ :: _ => false
  | a :: as, b :: bs => a = b && startsWithList as bs

/-- Go `strings.Contains`: does `hay` contain `needle` as a contiguous substring? -/
def containsSub (hay needle : List Char) : Bool :=
  match hay with
  | [] => needle.isEmpty
  | _ :: rest => startsWithList hay needle || containsSub rest needle

/-- Go `strings.EqualFold` restricted to ASCII case folding. -/
def goEqualFold (a b : String) : Bool := asciiLowerStr a = asciiLowerStr b

/-! ## `extractYMD` (transform stage)

Source (transform lambda `main.go`):
```go
func extractYMD(key string) (string, string, string) {
    segs := strings.Split(key, "/")
    var y, m, d string
    for _, s := range segs {
        if strings.HasPrefix(s, "year=") { y = strings.TrimPrefix(s, "year=") }
        if strings.HasPrefix(s, "month=") { m = strings.TrimPrefix(s, "month=") }
        if strings.HasPrefix(s, "day=") { d = strings.TrimPrefix(s, "day=") }
    }
    return y, m, d
}
```
-/

def extractYMD (key : String) : String × String × String :=
  (goSplit1 '/' key).foldl
    (fun acc s =>
      let y := if goStartsWith s "year=" then goDropPre s "year=" else acc.1
      let m := if goStartsWith s "month=" then goDropPre s "month=" else acc.2.1
      let d := if goStartsWith s "day=" then goDropPre s "day=" else acc.2.2
      (y, m, d))
    ("", "", "")

/-! ## Identifier sanitizers (ingestion stage)

Source:
```go
func sanitizeMessageID(msg *mail.Message) string {
    mid := msg.Header.Get("Message-ID")
    mid = strings.TrimSpace(strings.Trim(mid, "<>"))
    if mid == "" { return "" }
    re := regexp.MustCompile(`[^A-Za-z0-9._-]+`)
    return re.ReplaceAllString(mid, "-")
}

func sanitizeFilename(name string) string {
    if name == "" { return "attachment.csv" }
    name = filepath.Base(name)
    re := regexp.MustCompile(`[^A-Za-z0-9._-]+`)
    return re.ReplaceAllString(name, "_")
}
```
-/

/-- A character of the class `[A-Za-z0-9._-]` from the sanitizer regexes. -/
def idChar (c : Char) : Bool :=
  decide (('A' ≤ c ∧ c ≤ 'Z') ∨ ('a' ≤ c ∧ c ≤ 'z') ∨ ('0' ≤ c ∧ c ≤ '9') ∨
          c = '.' ∨ c = '_' ∨ c = '-')

/-- `regexp.ReplaceAllString` for the pattern `[^X]+` with replacement `rep`:
every maximal run of characters not satisfying `p` is replaced by one copy of
`rep`.  The Boolean tracks whether we are inside a run already replaced. -/
def replaceRunsAux (p : Char → Bool) (rep : List Char) : Bool → List Char → List Char
  | _, [] => []
  | inRun, c :: cs =>
    if p c then c :: replaceRunsAux p rep false cs
    else (if inRun then [] else rep) ++ replaceRunsAux p rep true cs

def replaceRuns (p : Char → Bool) (rep : List Char) (l : List Char) : List Char :=
  replaceRunsAux p rep false l

/-- Go `filepath.Base` on a Unix path (as used by `sanitizeFilename`). -/
def goBase (path : String) : String :=
  if path = "" then "."
  else
    let p1 := (path.data.reverse.dropWhile (fun c => c = '/')).reverse
    let p2 := (p1.reverse.takeWhile (fun c => c ≠ '/')).reverse
    if p2 = [] then "/" else String.mk p2

/-- `sanitizeMessageID` applied to an already-extracted `Message-ID` header value
(the `msg.Header.Get` step is the caller's concern). -/
def sanitizeMessageID (mid0 : String) : String :=
  let mid := goTrimSpace (String.mk ((mid0.data.dropWhile (fun c => c = '<' ∨ c = '>')).reverse.dropWhile (fun c => c = '<' ∨ c = '>')).reverse)
  if mid = "" then ""
  else String.mk (replaceRuns idChar ['-'] mid.data)

def sanitizeFilename (name : String) : String :=
  if name = "" then "attachment.csv"
  else String.mk (replaceRuns idChar ['_'] (goBase name).data)

/-- The claim's version of `sanitizeFilename`, following the spec's words:
disallowed runs substituted "the same way as `sanitizeMessageID`", i.e. with a
single `-`. -/
def sanitizeFilenameClaimed (name : String) : String :=
  if name = "" then "attachment.csv"
  else String.mk (replaceRuns idChar ['-'] (goBase name).data)

/-! ## Numeric parsing (transform stage)

Source:
```go
func parseFloat(s string) (float64, error) {
    re := regexp.MustCompile(`[^0-9.\-]+`)
    clean := re.ReplaceAllString(s, "")
    if clean == "" { return 0, fmt.Errorf("empty") }
    return strconv.ParseFloat(clean, 64)
}
```
Replacing every disallowed run by the empty string equals deleting every
disallowed character, i.e. a filter.  `strconv.ParseFloat` is modelled exactly
over `Rat` for the decimal grammar `[-] digits [. digits]` (after the strip the
string can only contain `[0-9.\-]`, so exponents, `Inf`, `NaN` and hex forms
cannot occur); the claims under verification only concern values that are
exactly representable in `float64`, where the `Rat` model agrees.
-/

/-- The character class `[0-9.\-]` kept by `parseFloat`'s strip step. -/
def numChar (c : Char) : Bool :=
  decide (('0' ≤ c ∧ c ≤ '9') ∨ c = '.' ∨ c = '-')

/-- `re.ReplaceAllString(s, "")` for `[^0-9.\-]+`: delete all other characters. -/
def stripNonNumeric (s : String) : String :=
  String.mk (s.data.filter numChar)

def isDigitChar (c : Char) : Bool := decide ('0' ≤ c ∧ c ≤ '9')

/-- Numeric value of a digit run (most significant first). -/
def digitsVal (l : List Char) : Nat :=
  l.foldl (fun a c => 10 * a + (c.toNat - 48)) 0

/-- Model of `strconv.ParseFloat` on strings drawn from `[0-9.\-]`:
an optional leading minus sign, then `digits [. digits]` with at least one
digit and nothing left over.  Returns the exact decimal value
`±(int + frac / 10^len)`, expressed as the single quotient
`±(int·10^len + frac) / 10^len`. -/
def goParseFloat (cs : List Char) : Option Rat :=
  let (neg, cs1) := match cs with
    | '-' :: rest => (true, rest)
    | _ => (false, cs)
  let intDigits := cs1.takeWhile isDigitChar
  let cs2 := cs1.dropWhile isDigitChar
  let mkVal (ip fp : List Char) : Rat :=
    let n : Int := (digitsVal ip * 10 ^ fp.length + digitsVal fp : Nat)
    mkRat (if neg then -n else n) (10 ^ fp.length)
  match cs2 with
  | [] => if intDigits.isEmpty then none else some (mkVal intDigits [])
  | '.' :: frac =>
    let fracDigits := frac.takeWhile isDigitChar
    let rest := frac.dropWhile isDigitChar
    if rest.isEmpty then
      if intDigits.isEmpty ∧ fracDigits.isEmpty then none
      else some (mkVal intDigits fracDigits)
    else none
  | _ => none

/-- `parseFloat` from the transform lambda. -/
def parseFloat (s : String) : Except String Rat :=
  let clean := stripNonNumeric s
  if clean = "" then .error "empty"
  else
    match goParseFloat clean.data with
    | some v => .ok v
    | none => .error "invalid syntax"

/-! ## Schema mapper `mapRow` (transform stage)

Source (`mapRow`, transform lambda): a `NormalizedRow` is a map from
lower-cased, underscore-joined header names to trimmed cell values; it is
modelled as an association list with `List.lookup`.  The `get`, `pfloat` and
`pstr` closures of the source are hoisted to top-level definitions.
-/

/-- `norm` from the transform lambda:
`strings.ToLower(strings.ReplaceAll(strings.TrimSpace(s), " ", "_"))`. -/
def goNorm (s : String) : String :=
  asciiLowerStr (String.mk ((goTrimSpace s).data.map (fun c => if c = ' ' then '_' else c)))

/-- The typed 15-column record written to parquet (`LoseItLog`). -/
structure LoseItLog where
  recordType : Option String
  date : Option String
  meal : Option String
  name : Option String
  quantity : Option Rat
  units : Option String
  calories : Option Rat
  proteinG : Option Rat
  fatG : Option Rat
  carbsG : Option Rat
  fiberG : Option Rat
  sodiumMg : Option Rat
  sugarG : Option Rat
  durationMinutes : Option Rat
  distanceKm : Option Rat
deriving DecidableEq

/-- The `get` closure of `mapRow`: first present key (after `norm`) wins,
missing keys yield `""` (note: a present key with empty value also yields `""`
and stops the search). -/
def rowGet (row : List (String × String)) : List String → String
  | [] => ""
  | k :: rest =>
    match row.lookup (goNorm k) with
    | some v => v
    | none => rowGet row rest

/-- The `pfloat` closure of `mapRow`. -/
def pfloat (s : String) : Option Rat :=
  if s = "" then none
  else
    match parseFloat s with
    | .ok f => some f
    | .error _ => none

/-- The `pstr` closure of `mapRow`. -/
def pstr (s : String) : Option String :=
  if s = "" then none else some s

def mapRow (row : List (String × String)) : LoseItLog :=
  let get := rowGet row
  let rt0 := get ["record_type", "type"]
  let rt :=
    if rt0 = "" then
      if get ["type"] = "Exercise"
          || containsSub (asciiLowerStr (get ["name"])).data "exercise".data
      then "exercise" else "food"
    else rt0
  let date := get ["date"]
  let mealRaw := get ["type"]
  let meal := if rt = "exercise" then none else pstr mealRaw
  let name := get ["name", "food", "exercise"]
  { recordType := pstr rt
    date := pstr date
    meal := meal
    name := pstr name
    quantity := pfloat (get ["quantity", "amount"])
    units := pstr (get ["units", "unit"])
    calories := pfloat (get ["calories", "kcal"])
    proteinG := pfloat (get ["protein_(g)", "protein"])
    fatG := pfloat (get ["fat_(g)", "fat"])
    carbsG := pfloat (get ["carbohydrates_(g)", "carbs", "carbohydrates"])
    fiberG := pfloat (get ["fiber_(g)", "fiber"])
    sodiumMg := pfloat (get ["sodium_(mg)", "sodium"])
    sugarG := pfloat (get ["sugars_(g)", "sugar"])
    durationMinutes := pfloat (get ["duration_minutes", "duration"])
    distanceKm := pfloat (get ["distance_km", "distance"]) }

/-! ## Environment defaulting and the domain filter (ingestion stage)

Source:
```go
func envOr(k, def string) string {
    if v := os.Getenv(k); v != "" { return v }
    return def
}
```
and the domain-filter block of `handler` (the environment is modelled as a
function from variable names to values, with `""` meaning unset — exactly the
`os.Getenv` view; `mail.ParseAddress` is an external collaborator modelled as
an oracle returning the parsed address on success).
-/

def envOr (env : String → String) (k def_ : String) : String :=
  if env k ≠ "" then env k else def_

/-- Outcome of the per-record domain check: proceed, or delete the source
object and continue with the next record (carrying the log reason). -/
inductive FilterDecision where
  | accept : FilterDecision
  | rejectDelete : String → FilterDecision
deriving DecidableEq

/-- The domain-filter block of the ingestion `handler` (lines guarded by
`if allowedDomain != ""`): `fromHeader` is `msg.Header.Get("From")` (`""` when
absent), `parseAddress` models `mail.ParseAddress` returning the address part. -/
def domainFilter (allowedDomain : String) (parseAddress : String → Option String)
    (fromHeader : String) : FilterDecision :=
  if allowedDomain ≠ "" then
    if fromHeader = "" then .rejectDelete "no From header"
    else
      match parseAddress fromHeader with
      | none => .rejectDelete "invalid From header"
      | some addr =>
        match goSplit1 '@' addr with
        | [_, domainPart] =>
          if asciiLowerStr domainPart ≠ asciiLowerStr allowedDomain then
            .rejectDelete "unauthorized domain"
          else .accept
        | _ => .rejectDelete "invalid email format"
  else .accept

/-- The allowed domain as the `handler` resolves it from the environment. -/
def resolvedAllowedDomain (env : String → String) : String :=
  envOr env "ALLOWED_SENDER_DOMAIN" "loseit.com"

/-! ## URL decoding (ingestion stage)

Source:
```go
func urlDecode(s string) (string, error) {
    r := strings.ReplaceAll(s, "+", "%20")
    u, err := urlUnescape(r)
    if err != nil { return s, nil } // best-effort
    return u, nil
}

func urlUnescape(s string) (string, error) {
    var out []byte
    for i := 0; i < len(s); i++ {
        if s[i] == '%' && i+2 < len(s) {
            var hv byte
            for j := 1; j <= 2; j++ { ... hex digit or error ... }
            out = append(out, hv)
            i += 2
        } else {
            out = append(out, s[i])
        }
    }
    return string(out), nil
}
```
The byte-level loop is modelled on the character list (ASCII inputs); the
`i+2 < len(s)` guard is exactly the pattern `'%' :: c1 :: c2 :: rest`.
-/

/-- `strings.ReplaceAll(s, "+", "%20")`. -/
def goReplacePlus (s : String) : String :=
  String.mk (s.data.foldr (fun c acc => if c = '+' then '%' :: '2' :: '0' :: acc else c :: acc) [])

/-- Value of a hex digit, or `none` (the `switch` of `urlUnescape`). -/
def hexVal (c : Char) : Option Nat :=
  if '0' ≤ c ∧ c ≤ '9' then some (c.toNat - 48)
  else if 'a' ≤ c ∧ c ≤ 'f' then some (c.toNat - 97 + 10)
  else if 'A' ≤ c ∧ c ≤ 'F' then some (c.toNat - 65 + 10)
  else none

def urlUnescapeCore : List Char → Option (List Char)
  | [] => some []
  | '%' :: c1 :: c2 :: rest =>
    match hexVal c1, hexVal c2 with
    | some h1, some h2 =>
      match urlUnescapeCore rest with
      | some out => some (Char.ofNat (16 * h1 + h2) :: out)
      | none => none
    | _, _ => none
  | c :: rest =>
    match urlUnescapeCore rest with
    | some out => some (c :: out)
    | none => none

def urlUnescape (s : String) : Except String String :=
  match urlUnescapeCore s.data with
  | some cs => .ok (String.mk cs)
  | none => .error "invalid escape"

/-- `urlDecode`: the returned pair is (result, error); the error is always
`none` (`nil`). -/
def urlDecode (s : String) : String × Option String :=
  let r := goReplacePlus s
  match urlUnescape r with
  | .error _ => (s, none)
  | .ok u => (u, none)

/-! ## Partition-key derivation from the Date header (ingestion stage)

Source:
```go
func dateFromMessage(msg *mail.Message) string {
    t := time.Now().UTC()
    if msg != nil {
        if dh := msg.Header.Get("Date"); dh != "" {
            if dt, err := mail.ParseDate(dh); err == nil { t = dt.UTC() }
        }
    }
    return t.Format("2006-01-02")
}

func dateParts(dt string) (string, string, string) {
    parts := strings.Split(dt, "-")
    if len(parts) != 3 {
        now := time.Now().UTC()
        return now.Format("2006"), now.Format("01"), now.Format("02")
    }
    return parts[0], parts[1], parts[2]
}
```
`time.Time` values are modelled as a civil date-time plus a zone offset
(`GoTime`); `.UTC()` followed by `Format("2006-01-02")` is the calendar
conversion `goTimeUTCDate`, implemented with the standard civil-from-days /
days-from-civil calendar algorithms.  `time.Now()` and `mail.ParseDate` are
external collaborators passed in as parameters/oracles.
-/

/-- A Go `time.Time`: civil date-time fields plus the zone offset (seconds
east of UTC). -/
structure GoTime where
  year : Int
  month : Int
  day : Int
  hour : Int
  minute : Int
  second : Int
  offsetSeconds : Int
deriving DecidableEq

/-- Days since 1970-01-01 of a civil date (proleptic Gregorian). -/
def daysFromCivil (y m d : Int) : Int :=
  let y' := if m ≤ 2 then y - 1 else y
  let era := Int.ediv y' 400
  let yoe := y' - era * 400
  let mp := Int.emod (m + 9) 12
  let doy := Int.ediv (153 * mp + 2) 5 + d - 1
  let doe := yoe * 365 + Int.ediv yoe 4 - Int.ediv yoe 100 + doy
  era * 146097 + doe - 719468

/-- Civil date of a day count since 1970-01-01 (inverse of `daysFromCivil`). -/
def civilFromDays (z : Int) : Int × Int × Int :=
  let z' := z + 719468
  let era := Int.ediv z' 146097
  let doe := z' - era * 146097
  let yoe := Int.ediv (doe - Int.ediv doe 1460 + Int.ediv doe 36524 - Int.ediv doe 146096) 365
  let y := yoe + era * 400
  let doy := doe - (365 * yoe + Int.ediv yoe 4 - Int.ediv yoe 100)
  let mp := Int.ediv (5 * doy + 2) 153
  let d := doy - Int.ediv (153 * mp + 2) 5 + 1
  let m := mp + (if mp < 10 then 3 else -9)
  (if m ≤ 2 then y + 1 else y, m, d)

/-- Zero-padded decimal rendering (Go `Format` verbs `01`/`02`). -/
def pad2 (n : Int) : String :=
  let s := toString n.toNat
  if s.length < 2 then "0" ++ s else s

/-- Zero-padded decimal rendering (Go `Format` verb `2006`). -/
def pad4 (n : Int) : String :=
  let s := toString n.toNat
  if s.length ≥ 4 then s
  else String.mk (List.replicate (4 - s.length) '0') ++ s

/-- The UTC calendar components of a `GoTime` (`t.UTC()` then `Format`). -/
def goTimeUTCParts (t : GoTime) : String × String × String :=
  let secs := daysFromCivil t.year t.month t.day * 86400 +
              t.hour * 3600 + t.minute * 60 + t.second - t.offsetSeconds
  let days := Int.ediv secs 86400
  let c := civilFromDays days
  (pad4 c.1, pad2 c.2.1, pad2 c.2.2)

/-- `t.UTC().Format("2006-01-02")`. -/
def goTimeUTCDate (t : GoTime) : String :=
  let p := goTimeUTCParts t
  p.1 ++ "-" ++ p.2.1 ++ "-" ++ p.2.2

/-- `dateFromMessage`: `now` models `time.Now().UTC()`, `parseDate` models
`mail.ParseDate`, `dateHeader` is `msg.Header.Get("Date")` (`""` if absent). -/
def dateFromMessage (now : GoTime) (parseDate : String → Option GoTime)
    (dateHeader : String) : String :=
  if dateHeader ≠ "" then
    match parseDate dateHeader with
    | some dt => goTimeUTCDate dt
    | none => goTimeUTCDate now
  else goTimeUTCDate now

/-- `dateParts`: `now2` models the fresh `time.Now().UTC()` of the fallback. -/
def dateParts (now2 : GoTime) (dt : String) : String × String × String :=
  match goSplit1 '-' dt with
  | [y, m, d] => (y, m, d)
  | _ => goTimeUTCParts now2

/-! ## Unique-key resolution (ingestion stage)

Source:
```go
func ensureUniqueKey(ctx context.Context, s3c s3API, bucket, key string) string {
    base := key
    ext := ""
    if i := strings.LastIndex(key, "."); i > -1 { base = key[:i]; ext = key[i:] }
    try := 1
    k := key
    for {
        _, err := s3c.HeadObject(...Key: &k)
        if err != nil { return k } // assume not found
        try++
        k = fmt.Sprintf("%s-%d%s", base, try, ext)
        if try > 50 { return fmt.Sprintf("%s-%s%s", base, uuid.New().String(), ext) }
    }
}
```
`HeadObject` is modelled by the existence oracle `ex` (`true` = the probe
succeeded, i.e. the key exists); `uuid.New().String()` by the parameter `u`.
-/

/-- Split at the last `.`: `("name", ".csv")`; no dot gives `(key, "")`. -/
def splitExt (key : String) : String × String :=
  let r := key.data.reverse
  match r.dropWhile (fun c => c ≠ '.') with
  | [] => (key, "")
  | _ :: baseRev =>
    (String.mk baseRev.reverse, String.mk ('.' :: (r.takeWhile (fun c => c ≠ '.')).reverse))

/-- The probing loop of `ensureUniqueKey`. -/
def ensureGo (ex : String → Bool) (base ext u : String) (k : String) (tryN : Nat) : String :=
  if ex k then
    let try2 := tryN + 1
    let k2 := base ++ "-" ++ toString try2 ++ ext
    if try2 > 50 then base ++ "-" ++ u ++ ext
    else ensureGo ex base ext u k2 try2
  else k
termination_by 51 - tryN
decreasing_by
  rename_i h
  simp only [not_lt] at h
  omega

def ensureUniqueKey (ex : String → Bool) (u : String) (key : String) : String :=
  let p := splitExt key
  ensureGo ex p.1 p.2 u key 1

/-- The `n`-th candidate key probed by `ensureUniqueKey`: the canonical key
itself for `n ≤ 1`, then `base-n.ext` for `n ≥ 2`. -/
def cand (key : String) (n : Nat) : String :=
  if n ≤ 1 then key
  else (splitExt key).1 ++ "-" ++ toString n ++ (splitExt key).2

/-- `ensureGo` instrumented with the number of `HeadObject` probes performed. -/
def ensureGoCount (ex : String → Bool) (base ext u : String) (k : String) (tryN : Nat) :
    String × Nat :=
  if ex k then
    let try2 := tryN + 1
    let k2 := base ++ "-" ++ toString try2 ++ ext
    if try2 > 50 then (base ++ "-" ++ u ++ ext, 1)
    else
      let r := ensureGoCount ex base ext u k2 try2
      (r.1, r.2 + 1)
  else (k, 1)
termination_by 51 - tryN
decreasing_by
  rename_i h
  simp only [not_lt] at h
  omega

def ensureUniqueKeyCount (ex : String → Bool) (u : String) (key : String) : String × Nat :=
  let p := splitExt key
  ensureGoCount ex p.1 p.2 u key 1

/-! ## Raw-email and attachment persistence (ingestion stage)

The persistence phase of `handler` for one record, after the partition parts
`(y, m, d)` and the message id have been computed:

```go
rawKey := fmt.Sprintf("%syear=%s/month=%s/day=%s/%s.eml", ...)
if _, err := s3c.PutObject(...rawKey...); err != nil {
    return fmt.Errorf("put raw eml: %w", err)
}
env, err := enmime.ReadEnvelope(bytes.NewReader(rawBytes))
if err != nil { log.Printf("warn: enmime parse failed ...") } else {
    for _, a := range env.Attachments {
        ctype, _, _ := mime.ParseMediaType(a.ContentType)
        name := a.FileName
        if strings.EqualFold(filepath.Ext(name), ".csv") || strings.EqualFold(ctype, "text/csv") {
            data := a.Content
            if data == nil { log.Printf("warn: attachment %s has no content", name); continue }
            baseName := "loseit-daily.csv"
            if sn := strings.TrimSpace(name); sn != "" { baseName = sanitizeFilename(sn) }
            csvKey := fmt.Sprintf("%syear=%s/month=%s/day=%s/%s", ...)
            csvKey = ensureUniqueKey(ctx, s3c, bucketName, csvKey)
            if _, perr := s3c.PutObject(...csvKey...); perr != nil {
                log.Printf("warn: put csv %s: %v", csvKey, perr)
            }
        }
    }
}
```
S3 responses are modelled by `S3Resp` oracles (`putOk k = true` iff
`PutObject` on key `k` succeeds, `headExists` as in `ensureUniqueKey`); the
MIME envelope (`enmime.ReadEnvelope` plus `mime.ParseMediaType`) as an optional
list of parsed attachments.  The phase returns the list of keys on which a
`PutObject` was attempted, the warnings logged, and the error returned (or
`none` on success).
-/

/-- Go `filepath.Ext`: the suffix of the final path element starting at its
last dot, `""` when the final element has no dot. -/
def goExt (name : String) : String :=
  let seg := name.data.reverse.takeWhile (fun c => c ≠ '/')
  if seg.contains '.' then String.mk ('.' :: (seg.takeWhile (fun c => c ≠ '.')).reverse)
  else ""

/-- A MIME attachment as `enmime` presents it: declared file name, the media
type from `mime.ParseMediaType(a.ContentType)`, and the content bytes
(`none` models a `nil` slice). -/
structure Attachment where
  fileName : String
  ctype : String
  content : Option (List Nat)

/-- The S3 response oracles used by the persistence phase. -/
structure S3Resp where
  headExists : String → Bool
  putOk : String → Bool

/-- The attachment loop: returns (keys on which a put was attempted,
warnings logged). -/
def attachmentsLoop (s3 : S3Resp) (u : String) (csvBase y m d : String) :
    List Attachment → List String × List String
  | [] => ([], [])
  | a :: rest =>
    if goEqualFold (goExt a.fileName) ".csv" || goEqualFold a.ctype "text/csv" then
      match a.content with
      | none =>
        let r := attachmentsLoop s3 u csvBase y m d rest
        (r.1, ("warn: attachment " ++ a.fileName ++ " has no content") :: r.2)
      | some _ =>
        let baseName :=
          if goTrimSpace a.fileName ≠ "" then sanitizeFilename (goTrimSpace a.fileName)
          else "loseit-daily.csv"
        let csvKey0 := csvBase ++ "year=" ++ y ++ "/month=" ++ m ++ "/day=" ++ d ++ "/" ++ baseName
        let csvKey := ensureUniqueKey s3.headExists u csvKey0
        let r := attachmentsLoop s3 u csvBase y m d rest
        if s3.putOk csvKey then (csvKey :: r.1, r.2)
        else (csvKey :: r.1, ("warn: put csv " ++ csvKey) :: r.2)
    else attachmentsLoop s3 u csvBase y m d rest

/-- The per-record persistence phase: raw-EML put, then (on success) MIME
attachment extraction and the attachment loop.  Returns ((attempted put keys,
logged warnings), returned error). -/
def recordPersistPhase (s3 : S3Resp) (u : String) (rawKey : String)
    (envelope : Option (List Attachment)) (csvBase y m d : String) :
    (List String × List String) × Option String :=
  if s3.putOk rawKey then
    match envelope with
    | none => (([rawKey], ["warn: enmime parse failed; continuing with raw only"]), none)
    | some atts =>
      let r := attachmentsLoop s3 u csvBase y m d atts
      ((rawKey :: r.1, r.2), none)
  else (([rawKey], []), some "put raw eml")

/-! ## Theorems about `extractYMD` and the sanitizers -/

/-- Every maximal disallowed run is replaced by `rep`, so when `rep` satisfies
`p` throughout, so does the whole output. -/
theorem replaceRunsAux_all (p : Char → Bool) (rep : List Char)
    (hrep : rep.all p = true) :
    ∀ (b : Bool) (l : List Char), (replaceRunsAux p rep b l).all p = true := by
  intro b l
  induction l generalizing b with
  | nil => rfl
  | cons c cs ih =>
    simp only [replaceRunsAux]
    by_cases hc : p c
    · simpa [hc] using ih false
    · simp only [hc, if_neg]
      cases b <;> simp_all [List.all_append]

end Mailmunch

/-- C3: Partition-path extraction: the plain key
`raw/loseit_csv/year=2025/month=08/day=27/f.csv` yields `("2025","08","27")`,
but the percent-encoded key `raw/loseit_csv/year%3D2025/month%3D09/day%3D21/f.csv`
yields `("","","")`, not `("2025","09","21")` as the claim (and the repository's
own `TestExtractYMD` unit test) requires: `extractYMD` only strips literal
`year=`/`month=`/`day=` prefixes and never decodes `%3D`. -/
theorem Mailmunch.extractYMD_encoded_divergence :
    Mailmunch.extractYMD "raw/loseit_csv/year=2025/month=08/day=27/f.csv"
      = ("2025", "08", "27") ∧
    Mailmunch.extractYMD "raw/loseit_csv/year%3D2025/month%3D09/day%3D21/f.csv"
      = ("", "", "") ∧
    Mailmunch.extractYMD "raw/loseit_csv/year%3D2025/month%3D09/day%3D21/f.csv"
      ≠ ("2025", "09", "21") := by
  exact ⟨by decide, by decide, by decide⟩

/-- C4 counterexample: `sanitizeFilename` does NOT substitute disallowed runs
the same way as `sanitizeMessageID`: on `"my file.csv"` the filename sanitizer
produces `"my_file.csv"` (underscore) while the message-ID sanitizer's
substitution produces `"my-file.csv"` (dash), so the two substitutions differ. -/
theorem Mailmunch.sanitizeFilename_not_dash :
    Mailmunch.sanitizeFilename "my file.csv" = "my_file.csv" ∧
    Mailmunch.sanitizeMessageID "my file.csv" = "my-file.csv" ∧
    Mailmunch.sanitizeFilenameClaimed "my file.csv" = "my-file.csv" ∧
    Mailmunch.sanitizeFilename "my file.csv"
      ≠ Mailmunch.sanitizeFilenameClaimed "my file.csv" := by
  exact ⟨by decide, by decide, by decide, by decide⟩

/-- C4 (amended): `sanitizeFilename` keeps only the base name (so
`"../../etc/passwd"` yields `"passwd"`), replaces every run of characters
outside `[A-Za-z0-9._-]` with a single `_` (not the `-` used by
`sanitizeMessageID`), and maps the empty input to the fixed default
`"attachment.csv"`; consequently every output character is in the allowed
class. -/
theorem Mailmunch.sanitizeFilename_spec :
    Mailmunch.sanitizeFilename "" = "attachment.csv" ∧
    Mailmunch.sanitizeFilename "../../etc/passwd" = "passwd" ∧
    Mailmunch.sanitizeFilename "my file.csv" = "my_file.csv" ∧
    Mailmunch.sanitizeFilename "We!rd@Name#.csv" = "We_rd_Name_.csv" ∧
    ∀ name : String,
      (Mailmunch.sanitizeFilename name).data.all Mailmunch.idChar = true := by
  refine ⟨by decide, by decide, by decide, by decide, ?_⟩
  intro name
  unfold Mailmunch.sanitizeFilename
  by_cases h : name = ""
  · simp only [h, if_pos rfl]
    decide
  · simp only [if_neg h]
    exact Mailmunch.replaceRunsAux_all _ _ (by decide) false _


/-- C2 counterexample: for the normalized row `{type: "Exercise"}` (no
`record_type` field) `mapRow` does NOT produce `record_type = "exercise"` with
`meal = null`: the `get("record_type","type")` lookup returns the non-empty
value `"Exercise"`, which is kept verbatim, so `record_type = "Exercise"` and
`meal = "Exercise"`. -/
theorem Mailmunch.mapRow_type_exercise_counterexample :
    (Mailmunch.mapRow [("type", "Exercise")]).recordType = some "Exercise" ∧
    (Mailmunch.mapRow [("type", "Exercise")]).meal = some "Exercise" ∧
    (Mailmunch.mapRow [("type", "Exercise")]).recordType ≠ some "exercise" ∧
    (Mailmunch.mapRow [("type", "Exercise")]).meal ≠ none := by
  exact ⟨by decide, by decide, by decide, by decide⟩

/-- C2 (amended): a row with `type = "Exercise"` and no `record_type` field
gets the value passed through verbatim (`record_type = "Exercise"`,
`meal = "Exercise"`); the case-sensitive `type == "Exercise"` heuristic only
fires when the `record_type`/`type` lookup yields the empty string (e.g. an
empty `record_type` cell), in which case `record_type = "exercise"` and
`meal = null`; and a row with neither field whose `name` does not contain
`"exercise"` (case-insensitive) defaults to `record_type = "food"`. -/
theorem Mailmunch.mapRow_record_type_inference :
    (Mailmunch.mapRow [("type", "Exercise")]).recordType = some "Exercise" ∧
    (Mailmunch.mapRow [("record_type", ""), ("type", "Exercise")]).recordType
      = some "exercise" ∧
    (Mailmunch.mapRow [("record_type", ""), ("type", "Exercise")]).meal = none ∧
    ∀ row : List (String × String),
      row.lookup "record_type" = none →
      row.lookup "type" = none →
      Mailmunch.containsSub
        (Mailmunch.asciiLowerStr (Mailmunch.rowGet row ["name"])).data
        "exercise".data = false →
      (Mailmunch.mapRow row).recordType = some "food" := by
  refine ⟨by decide, by decide, by decide, ?_⟩
  intro row h1 h2 h3
  have e1 : Mailmunch.goNorm "record_type" = "record_type" := by decide
  have e2 : Mailmunch.goNorm "type" = "type" := by decide
  have g1 : Mailmunch.rowGet row ["record_type", "type"] = "" := by
    simp [Mailmunch.rowGet, e1, e2, h1, h2]
  have g2 : Mailmunch.rowGet row ["type"] = "" := by
    simp [Mailmunch.rowGet, e2, h2]
  simp only [Mailmunch.mapRow, g1, g2, h3, if_pos rfl]
  simp [Mailmunch.pstr]

/-- Witness for the amended C2 theorem at the row `{name: "Chicken Breast"}`. -/
theorem Mailmunch.mapRow_record_type_inference_witness :
    (Mailmunch.mapRow [("name", "Chicken Breast")]).recordType = some "food" :=
  Mailmunch.mapRow_record_type_inference.2.2.2 [("name", "Chicken Breast")]
    (by decide) (by decide) (by decide)

/-- C9: numeric-field sanitization: `parseFloat` first deletes every character
outside `[0-9.\-]`, so `"1,234.5 cal"` cleans to `"1234.5"` and parses to
exactly `1234.5`; an empty input, or one that is empty after the strip, makes
`pfloat` (and hence the mapped record's numeric field, here `calories`) `null`
rather than an error. -/
theorem Mailmunch.parseFloat_sanitization :
    Mailmunch.stripNonNumeric "1,234.5 cal" = "1234.5" ∧
    Mailmunch.parseFloat "1,234.5 cal" = .ok (1234.5 : Rat) ∧
    Mailmunch.pfloat "" = none ∧
    (∀ s, Mailmunch.stripNonNumeric s = "" → Mailmunch.pfloat s = none) ∧
    (∀ v, Mailmunch.stripNonNumeric v = "" →
      (Mailmunch.mapRow [("calories", v)]).calories = none) := by
  have hempty : ∀ s, Mailmunch.stripNonNumeric s = "" → Mailmunch.pfloat s = none := by
    intro s h
    by_cases hs : s = ""
    · simp [hs, Mailmunch.pfloat]
    · simp [Mailmunch.pfloat, hs, Mailmunch.parseFloat, h]
  refine ⟨by decide, ?_, by decide, hempty, ?_⟩
  · rw [show (1234.5 : Rat) = mkRat 12345 10 by norm_num]
    rfl
  intro v h
  have ecal : Mailmunch.goNorm "calories" = "calories" := by decide
  have g : Mailmunch.rowGet [("calories", v)] ["calories", "kcal"] = v := by
    simp [Mailmunch.rowGet, ecal]
  simp only [Mailmunch.mapRow, g]
  exact hempty v h

/-- Witness for C9 at the concrete input `"cal"` (empty after stripping). -/
theorem Mailmunch.parseFloat_sanitization_witness :
    Mailmunch.stripNonNumeric "cal" = "" ∧
    Mailmunch.pfloat "cal" = none ∧
    (Mailmunch.mapRow [("calories", "cal")]).calories = none :=
  ⟨by decide,
   Mailmunch.parseFloat_sanitization.2.2.2.1 "cal" (by decide),
   Mailmunch.parseFloat_sanitization.2.2.2.2 "cal" (by decide)⟩

/-- C1 counterexample: setting `ALLOWED_SENDER_DOMAIN` to the empty string does
NOT disable filtering: `envOr` treats the empty environment value as unset and
falls back to the default `"loseit.com"`, so with that environment a message
from `bob@evil.com` is still rejected (and the source object deleted), not
accepted. -/
theorem Mailmunch.emptyAllowedDomain_still_filters :
    Mailmunch.resolvedAllowedDomain (fun _ => "") = "loseit.com" ∧
    Mailmunch.domainFilter (Mailmunch.resolvedAllowedDomain (fun _ => ""))
      (fun _ => some "bob@evil.com") "Bob <bob@evil.com>"
      = .rejectDelete "unauthorized domain" ∧
    Mailmunch.domainFilter (Mailmunch.resolvedAllowedDomain (fun _ => ""))
      (fun _ => some "bob@evil.com") "Bob <bob@evil.com>"
      ≠ .accept := by
  exact ⟨by decide, by decide, by decide⟩

/-- C1 (amended): the domain filter itself always accepts when the resolved
allowed-domain string is empty; but an environment in which
`ALLOWED_SENDER_DOMAIN` is set to the empty string resolves through `envOr` to
the default `"loseit.com"`, so the empty environment value leaves filtering
enabled rather than disabling it. -/
theorem Mailmunch.domainFilter_empty_accepts :
    (∀ (parseAddress : String → Option String) (fromHeader : String),
      Mailmunch.domainFilter "" parseAddress fromHeader = .accept) ∧
    (∀ env : String → String, env "ALLOWED_SENDER_DOMAIN" = "" →
      Mailmunch.resolvedAllowedDomain env = "loseit.com") := by
  constructor
  · intro parseAddress fromHeader
    simp [Mailmunch.domainFilter]
  · intro env h
    simp [Mailmunch.resolvedAllowedDomain, Mailmunch.envOr, h]

/-- Witness for the amended C1 theorem: a concrete accept with empty resolved
domain, and the concrete env resolution. -/
theorem Mailmunch.domainFilter_empty_accepts_witness :
    Mailmunch.domainFilter "" (fun _ => none) "Bob <bob@evil.com>"
      = .accept ∧
    Mailmunch.resolvedAllowedDomain (fun _ => "") = "loseit.com" :=
  ⟨Mailmunch.domainFilter_empty_accepts.1 (fun _ => none) "Bob <bob@evil.com>",
   Mailmunch.domainFilter_empty_accepts.2 (fun _ => "") rfl⟩

/-- C10 counterexample: the input `"a+b%G"` contains a malformed percent escape
(`%` followed by the non-hex `G`), yet `urlDecode` does not return it
unchanged: the trailing `%G` has fewer than two characters after the `%` in the
plus-substituted string, so `urlUnescape` copies it literally without error and
the `+`-to-space substitution is kept: the result is `"a b%G"`. -/
theorem Mailmunch.urlDecode_short_escape_counterexample :
    Mailmunch.urlDecode "a+b%G" = ("a b%G", none) ∧
    ("a b%G" : String) ≠ "a+b%G" := by
  exact ⟨by decide, by decide⟩

/-- C10 (amended): `urlDecode` is total and never returns an error.  When
`urlUnescape` fails on the plus-substituted string — which happens exactly when
some `%` has at least two following characters whose first two are not both hex
digits — the original input is returned completely unchanged, `+`s included.  A
`%` with fewer than two following characters is copied literally (no error), so
for such inputs the `+`-to-space substitution still happens.  On well-formed
inputs every `+` becomes a space and every `%XX` is decoded. -/
theorem Mailmunch.urlDecode_best_effort :
    (∀ s : String, (Mailmunch.urlDecode s).2 = none) ∧
    (∀ s : String, Mailmunch.urlUnescapeCore (Mailmunch.goReplacePlus s).data = none →
      Mailmunch.urlDecode s = (s, none)) ∧
    Mailmunch.urlDecode "foo+bar%2Fbaz" = ("foo bar/baz", none) ∧
    Mailmunch.urlDecode "a+%Gx" = ("a+%Gx", none) := by
  refine ⟨?_, ?_, by decide, by decide⟩
  · intro s
    simp only [Mailmunch.urlDecode, Mailmunch.urlUnescape]
    cases h : Mailmunch.urlUnescapeCore (Mailmunch.goReplacePlus s).data <;> simp [h]
  · intro s h
    simp only [Mailmunch.urlDecode, Mailmunch.urlUnescape, h]

/-- Witness for the amended C10 theorem at `"x%Gy"`, whose `%` escape is
malformed with two following characters: the fallback returns the input
unchanged. -/
theorem Mailmunch.urlDecode_best_effort_witness :
    Mailmunch.urlUnescapeCore (Mailmunch.goReplacePlus "x%Gy").data = none ∧
    Mailmunch.urlDecode "x%Gy" = ("x%Gy", none) :=
  ⟨by decide, Mailmunch.urlDecode_best_effort.2.1 "x%Gy" (by decide)⟩

/-- C5: the partition key comes from the `Date` header converted to UTC when it
parses (any `now` gives the same result — determinism given the header), else
from the processing time: for the header
`Date: Wed, 27 Aug 2025 12:34:56 -0700` (which `mail.ParseDate` reads as civil
time 2025-08-27 12:34:56 at offset −7h) the derived parts are
`("2025","08","27")` regardless of the processing times involved. -/
theorem Mailmunch.datePartition_from_header :
    (∀ (parseDate : String → Option Mailmunch.GoTime)
       (now now2 : Mailmunch.GoTime),
      parseDate "Wed, 27 Aug 2025 12:34:56 -0700"
        = some ⟨2025, 8, 27, 12, 34, 56, -25200⟩ →
      Mailmunch.dateParts now2
        (Mailmunch.dateFromMessage now parseDate "Wed, 27 Aug 2025 12:34:56 -0700")
        = ("2025", "08", "27")) ∧
    (∀ (parseDate : String → Option Mailmunch.GoTime)
       (now now' : Mailmunch.GoTime) (hdr : String),
      hdr ≠ "" → (parseDate hdr).isSome →
      Mailmunch.dateFromMessage now parseDate hdr
        = Mailmunch.dateFromMessage now' parseDate hdr) := by
  constructor
  · intro parseDate now now2 h
    unfold Mailmunch.dateFromMessage
    rw [h]
    exact rfl
  · intro parseDate now now' hdr hne hsome
    simp only [Mailmunch.dateFromMessage]
    match hp : parseDate hdr with
    | some dt => simp [hne, hp]
    | none => rw [hp] at hsome; simp at hsome

/-- Witness for C5 with a concrete `mail.ParseDate` oracle and concrete
processing times. -/
theorem Mailmunch.datePartition_from_header_witness :
    Mailmunch.dateParts ⟨1999, 1, 1, 0, 0, 0, 0⟩
      (Mailmunch.dateFromMessage ⟨2000, 2, 2, 3, 4, 5, 0⟩
        (fun _ => some ⟨2025, 8, 27, 12, 34, 56, -25200⟩)
        "Wed, 27 Aug 2025 12:34:56 -0700")
      = ("2025", "08", "27") ∧
    Mailmunch.dateFromMessage ⟨2000, 2, 2, 3, 4, 5, 0⟩
      (fun _ => some ⟨2025, 8, 27, 12, 34, 56, -25200⟩)
      "Wed, 27 Aug 2025 12:34:56 -0700"
      = Mailmunch.dateFromMessage ⟨1984, 6, 7, 8, 9, 10, 3600⟩
        (fun _ => some ⟨2025, 8, 27, 12, 34, 56, -25200⟩)
        "Wed, 27 Aug 2025 12:34:56 -0700" :=
  ⟨Mailmunch.datePartition_from_header.1 _ ⟨2000, 2, 2, 3, 4, 5, 0⟩ ⟨1999, 1, 1, 0, 0, 0, 0⟩ rfl,
   Mailmunch.datePartition_from_header.2 _ ⟨2000, 2, 2, 3, 4, 5, 0⟩ ⟨1984, 6, 7, 8, 9, 10, 3600⟩
     "Wed, 27 Aug 2025 12:34:56 -0700" (by decide) rfl⟩

/-- The first candidate is the canonical key. -/
theorem Mailmunch.cand_one (key : String) : Mailmunch.cand key 1 = key := rfl

/-- For `n ≥ 2` the candidate inserts `-n` before the extension. -/
theorem Mailmunch.cand_ge_two (key : String) (n : Nat) (h : 2 ≤ n) :
    Mailmunch.cand key n
      = (Mailmunch.splitExt key).1 ++ "-" ++ toString n ++ (Mailmunch.splitExt key).2 := by
  unfold Mailmunch.cand
  rw [if_neg (by omega)]

/-- The probing loop walks the candidate sequence: started at candidate `tryN`,
if candidate `n ≤ 50` is the first free one from there on, it is returned. -/
theorem Mailmunch.ensureGo_reaches (ex : String → Bool) (u key : String) :
    ∀ (d tryN n : Nat), 1 ≤ tryN → n = tryN + d → n ≤ 50 →
    ex (Mailmunch.cand key n) = false →
    (∀ m, tryN ≤ m → m < n → ex (Mailmunch.cand key m) = true) →
    Mailmunch.ensureGo ex (Mailmunch.splitExt key).1 (Mailmunch.splitExt key).2 u
      (Mailmunch.cand key tryN) tryN = Mailmunch.cand key n := by
  intro d
  induction d with
  | zero =>
    intro tryN n h1 hn h50 hex hall
    have : n = tryN := by omega
    subst this
    rw [Mailmunch.ensureGo]
    simp [hex]
  | succ d ih =>
    intro tryN n h1 hn h50 hex hall
    have hextry : ex (Mailmunch.cand key tryN) = true := hall tryN le_rfl (by omega)
    rw [Mailmunch.ensureGo]
    simp only [hextry, if_true]
    rw [if_neg (by omega)]
    rw [show (Mailmunch.splitExt key).1 ++ "-" ++ toString (tryN + 1) ++ (Mailmunch.splitExt key).2
          = Mailmunch.cand key (tryN + 1) from (Mailmunch.cand_ge_two key (tryN + 1) (by omega)).symm]
    exact ih (tryN + 1) n (by omega) (by omega) h50 hex
      (fun m hm1 hm2 => hall m (by omega) hm2)

/-- C6: CSV key collision resolution: if the canonical key is free it is
returned unchanged; if the first free candidate is `base-n.ext`
(`2 ≤ n ≤ 50`) with all earlier candidates taken, that candidate is returned —
in particular the candidate after the canonical key is `base-2.ext`, e.g.
`"name.csv"` becomes `"name-2.csv"`. -/
theorem Mailmunch.ensureUniqueKey_collision_spec :
    (∀ (ex : String → Bool) (u key : String),
      ex key = false → Mailmunch.ensureUniqueKey ex u key = key) ∧
    (∀ (ex : String → Bool) (u key : String) (n : Nat),
      2 ≤ n → n ≤ 50 → ex (Mailmunch.cand key n) = false →
      (∀ m, 1 ≤ m → m < n → ex (Mailmunch.cand key m) = true) →
      Mailmunch.ensureUniqueKey ex u key = Mailmunch.cand key n) ∧
    Mailmunch.cand "name.csv" 2 = "name-2.csv" := by
  refine ⟨?_, ?_, by decide⟩
  · intro ex u key hex
    have h := Mailmunch.ensureGo_reaches ex u key 0 1 1 le_rfl rfl (by omega)
      (by rw [Mailmunch.cand_one]; exact hex)
      (fun m hm1 hm2 => absurd hm2 (by omega))
    rw [Mailmunch.cand_one] at h
    exact h
  · intro ex u key n h2 h50 hex hall
    have h := Mailmunch.ensureGo_reaches ex u key (n - 1) 1 n (by omega) (by omega) h50 hex
      (fun m hm1 hm2 => hall m hm1 hm2)
    rw [Mailmunch.cand_one] at h
    exact h

/-- Witness for C6: with only `"name.csv"` existing, the resolved key is
`"name-2.csv"`. -/
theorem Mailmunch.ensureUniqueKey_collision_spec_witness :
    Mailmunch.ensureUniqueKey (fun k => k == "name.csv") "u0" "name.csv" = "name-2.csv" := by
  have hall : ∀ m, 1 ≤ m → m < 2 →
      (Mailmunch.cand "name.csv" m == "name.csv") = true := by
    intro m hm1 hm2
    have hm : m = 1 := by omega
    subst hm
    decide
  have h := Mailmunch.ensureUniqueKey_collision_spec.2.1 (fun k => k == "name.csv")
    "u0" "name.csv" 2 (by omega) (by omega) (by decide) hall
  rw [h]
  decide

/-- At most `d + 1` probes happen from `tryN` on, where `tryN + d = 50`. -/
theorem Mailmunch.ensureGoCount_le (ex : String → Bool) (b e u : String) :
    ∀ (d tryN : Nat) (k : String), tryN + d = 50 →
    (Mailmunch.ensureGoCount ex b e u k tryN).2 ≤ d + 1 := by
  intro d
  induction d with
  | zero =>
    intro tryN k h
    have : tryN = 50 := by omega
    subst this
    rw [Mailmunch.ensureGoCount]
    cases hex : ex k <;> simp [hex]
  | succ d ih =>
    intro tryN k h
    rw [Mailmunch.ensureGoCount]
    cases hex : ex k
    · simp [hex]
    · simp only [hex, if_true]
      rw [if_neg (by omega)]
      have hr := ih (tryN + 1) (b ++ "-" ++ toString (tryN + 1) ++ e) (by omega)
      simp only []
      omega

/-- The instrumented loop computes the same key as the plain loop. -/
theorem Mailmunch.ensureGoCount_fst (ex : String → Bool) (b e u : String) :
    ∀ (d tryN : Nat) (k : String), tryN + d = 50 →
    (Mailmunch.ensureGoCount ex b e u k tryN).1 = Mailmunch.ensureGo ex b e u k tryN := by
  intro d
  induction d with
  | zero =>
    intro tryN k h
    have : tryN = 50 := by omega
    subst this
    rw [Mailmunch.ensureGoCount, Mailmunch.ensureGo]
    cases hex : ex k <;> simp [hex]
  | succ d ih =>
    intro tryN k h
    rw [Mailmunch.ensureGoCount, Mailmunch.ensureGo]
    cases hex : ex k
    · simp [hex]
    · simp only [hex, if_true]
      rw [if_neg (by omega), if_neg (by omega)]
      simp only []
      exact ih (tryN + 1) (b ++ "-" ++ toString (tryN + 1) ++ e) (by omega)

/-- When every probe reports the key as existing, the loop falls back to the
random-suffixed key. -/
theorem Mailmunch.ensureGo_allExists (ex : String → Bool) (b e u : String)
    (hex : ∀ k, ex k = true) :
    ∀ (d tryN : Nat) (k : String), tryN + d = 50 →
    Mailmunch.ensureGo ex b e u k tryN = b ++ "-" ++ u ++ e := by
  intro d
  induction d with
  | zero =>
    intro tryN k h
    have : tryN = 50 := by omega
    subst this
    rw [Mailmunch.ensureGo]
    simp [hex k]
  | succ d ih =>
    intro tryN k h
    rw [Mailmunch.ensureGo]
    simp only [hex k, if_true]
    rw [if_neg (by omega)]
    exact ih (tryN + 1) (b ++ "-" ++ toString (tryN + 1) ++ e) (by omega)

/-- C7: bounded probing: for every key and existence oracle the loop performs
at most 50 probes in total; the instrumented count agrees with the plain
function on the resolved key; and when the oracle reports every probed key as
existing, the result is the random-suffixed fallback key — so a key is always
produced after a bounded number of probes. -/
theorem Mailmunch.ensureUniqueKey_bounded_probing :
    (∀ (ex : String → Bool) (u key : String),
      (Mailmunch.ensureUniqueKeyCount ex u key).2 ≤ 50) ∧
    (∀ (ex : String → Bool) (u key : String),
      (Mailmunch.ensureUniqueKeyCount ex u key).1 = Mailmunch.ensureUniqueKey ex u key) ∧
    (∀ (ex : String → Bool) (u key : String), (∀ k, ex k = true) →
      Mailmunch.ensureUniqueKey ex u key
        = (Mailmunch.splitExt key).1 ++ "-" ++ u ++ (Mailmunch.splitExt key).2) := by
  refine ⟨?_, ?_, ?_⟩
  · intro ex u key
    exact Mailmunch.ensureGoCount_le ex (Mailmunch.splitExt key).1 (Mailmunch.splitExt key).2
      u 49 1 key (by omega)
  · intro ex u key
    exact Mailmunch.ensureGoCount_fst ex (Mailmunch.splitExt key).1 (Mailmunch.splitExt key).2
      u 49 1 key (by omega)
  · intro ex u key hex
    exact Mailmunch.ensureGo_allExists ex (Mailmunch.splitExt key).1 (Mailmunch.splitExt key).2
      u hex 49 1 key (by omega)

/-- Witness for C7: an oracle that says every key exists still yields a key —
the random-suffixed fallback. -/
theorem Mailmunch.ensureUniqueKey_bounded_probing_witness :
    Mailmunch.ensureUniqueKey (fun _ => true) "u0" "name.csv" = "name-u0.csv" ∧
    (Mailmunch.ensureUniqueKeyCount (fun _ => true) "u0" "name.csv").2 ≤ 50 := by
  constructor
  · have h := Mailmunch.ensureUniqueKey_bounded_probing.2.2 (fun _ => true) "u0" "name.csv"
      (fun _ => rfl)
    rw [h]
    decide
  · exact Mailmunch.ensureUniqueKey_bounded_probing.1 (fun _ => true) "u0" "name.csv"

/-- C8: asymmetric persistence policy: if the raw-EML put fails, the record
ends with the error `"put raw eml"` having attempted only the raw put (no
attachment extraction or attachment puts); if the raw put succeeds the phase
never returns an error, and the set of attempted attachment puts does not
depend on the attachment put outcomes — an individual failure is only logged
and the loop continues identically. -/
theorem Mailmunch.recordPersistPhase_policy :
    (∀ (s3 : Mailmunch.S3Resp) (u rawKey : String)
       (envl : Option (List Mailmunch.Attachment)) (csvBase y m d : String),
      s3.putOk rawKey = false →
      Mailmunch.recordPersistPhase s3 u rawKey envl csvBase y m d
        = (([rawKey], []), some "put raw eml")) ∧
    (∀ (s3 : Mailmunch.S3Resp) (u rawKey : String)
       (envl : Option (List Mailmunch.Attachment)) (csvBase y m d : String),
      s3.putOk rawKey = true →
      (Mailmunch.recordPersistPhase s3 u rawKey envl csvBase y m d).2 = none) ∧
    (∀ (hd p p' : String → Bool) (u csvBase y m d : String)
       (atts : List Mailmunch.Attachment),
      (Mailmunch.attachmentsLoop ⟨hd, p⟩ u csvBase y m d atts).1
        = (Mailmunch.attachmentsLoop ⟨hd, p'⟩ u csvBase y m d atts).1) := by
  refine ⟨?_, ?_, ?_⟩
  · intro s3 u rawKey envl csvBase y m d hput
    simp [Mailmunch.recordPersistPhase, hput]
  · intro s3 u rawKey envl csvBase y m d hput
    cases envl <;> simp [Mailmunch.recordPersistPhase, hput]
  · intro hd p p' u csvBase y m d atts
    induction atts with
    | nil => rfl
    | cons a rest ih =>
      simp only [Mailmunch.attachmentsLoop]
      split
      · split
        · simpa using ih
        · split <;> split <;> split <;> simp [ih]
      · exact ih

/-- Witness for C8 at concrete oracles: a failing raw put aborts with the
error; an all-successful S3 still returns no error. -/
theorem Mailmunch.recordPersistPhase_policy_witness :
    Mailmunch.recordPersistPhase ⟨fun _ => false, fun _ => false⟩ "u0" "rk"
      (some [⟨"r.csv", "text/csv", some [1]⟩]) "raw/loseit_csv/" "2025" "08" "27"
      = ((["rk"], []), some "put raw eml") ∧
    (Mailmunch.recordPersistPhase ⟨fun _ => false, fun _ => true⟩ "u0" "rk"
      (some [⟨"r.csv", "text/csv", some [1]⟩]) "raw/loseit_csv/" "2025" "08" "27").2
      = none :=
  ⟨Mailmunch.recordPersistPhase_policy.1 ⟨fun _ => false, fun _ => false⟩ "u0" "rk"
     (some [⟨"r.csv", "text/csv", some [1]⟩]) "raw/loseit_csv/" "2025" "08" "27" rfl,
   Mailmunch.recordPersistPhase_policy.2.1 ⟨fun _ => false, fun _ => true⟩ "u0" "rk"
     (some [⟨"r.csv", "text/csv", some [1]⟩]) "raw/loseit_csv/" "2025" "08" "27" rfl⟩
